import Mathlib

/-!
Verification of the concurrent trading ledger in
`Multithreaded_Stock_Exchange_Web_Server.cpp`.

Two embeddings are developed:

* a sequential functional model of the five transaction-processor
  operations (`reset`, `create`, `buy`, `sell`, `status`) and of the
  session dispatch in `clientThread`, and
* a small-step interleaving model (`Exch`/`step`) in which each C++
  statement of `buy`/`sell`/`create`/`reset` is one atomic step and the
  per-stock mutexes and the condition-variable wait are explicit.

Balances and amounts are C++ `unsigned int` values; they are embedded as
`Nat` with arithmetic performed modulo `2 ^ 32` exactly where the source
can overflow (`balance += amount` in `sell`, `balance -= amount` in
`buy`).
-/

namespace StockExchange

/-- Modulus of the C++ `unsigned int` arithmetic used for balances and
amounts. -/
def M32 : Nat := 4294967296

/-- The ledger `sm::stockMap : unordered_map<string, Stock>` embedded as an
association list from stock name to balance.  (The `Stock::name` field
duplicates the key and is used nowhere else, so it is not carried; the
per-stock `Stock::mutex` is modelled separately in the concurrent model.) -/
abbrev Ledger := List (String × Nat)

/-- `unordered_map::find`: the balance stored for `s`, if any. -/
def lookupL : Ledger → String → Option Nat
  | [], _ => none
  | (k, v) :: t, s => if k = s then some v else lookupL t s

/-- Assignment through `operator[]` to an existing or new key: replace the
first entry for `s`, or append one. -/
def setL : Ledger → String → Nat → Ledger
  | [], s, v => [(s, v)]
  | (k, w) :: t, s, v => if k = s then (s, v) :: t else (k, w) :: setL t s v

/-- `unordered_map::operator[]` evaluated for its side effect only:
default-insert `s` (with value-initialised balance `0`) when absent. -/
def insertD (l : Ledger) (s : String) : Ledger :=
  match lookupL l s with
  | some _ => l
  | none => l ++ [(s, 0)]

/-- `unsigned int` addition: `b + a` modulo `2 ^ 32` (src line 148,
`balance += amount`). -/
def wadd (b a : Nat) : Nat := (b + a) % M32

/-- `unsigned int` subtraction: `b - a` modulo `2 ^ 32` (src line 119,
`balance -= amount`). -/
def wsub (b a : Nat) : Nat := (b + (M32 - a % M32)) % M32

/-- `reset()` (src lines 62-65): clear the map, return "Stocks reset". -/
def reset (_l : Ledger) : String × Ledger :=
  ("Stocks reset", ([] : Ledger))

/-- `create(stock, amount)` (src lines 78-92): if absent, two
`operator[]` assignments insert the stock and set its balance; otherwise
no mutation.  The two statements `stockMap[stock].name = stock` and
`stockMap[stock].balance = amount` compose to
`setL (insertD l stock) stock amount`. -/
def create (l : Ledger) (stock : String) (amount : Nat) : String × Ledger :=
  match lookupL l stock with
  | none =>
      ("Stock " ++ stock ++ " created with balance = " ++ toString amount,
        setL (insertD l stock) stock amount)
  | some _ => ("Stock " ++ stock ++ " already exists", l)

/-- `buy(stock, amount)` (src lines 105-126), sequential view: when the
stock exists the session locks its mutex and waits on
`sm::buyCond` for `amount <= balance`; with no concurrent seller the wait
never returns when the predicate is false, which the sequential model
renders as `none`.  When the predicate holds the balance is decremented
(`amount ≤ bal` makes the `unsigned` subtraction exact). -/
def buy (l : Ledger) (stock : String) (amount : Nat) :
    Option (String × Ledger) :=
  match lookupL l stock with
  | some bal =>
      if amount ≤ bal then
        some ("Stock " ++ stock ++ "\x27s balance updated",
          setL l stock (bal - amount))
      else none
  | none => some ("Stock not found", l)

/-- `sell(stock, amount)` (src lines 139-158): when present, increment the
balance under the stock's lock (modulo `2 ^ 32`) and `notify_all` the
buy-waiters; when absent, "Stock not found". -/
def sell (l : Ledger) (stock : String) (amount : Nat) : String × Ledger :=
  match lookupL l stock with
  | some bal =>
      ("Stock " ++ stock ++ "\x27s balance updated",
        setL l stock (wadd bal amount))
  | none => ("Stock not found", l)

/-- `status(stock)` (src lines 168-183): read the balance under the
stock's lock; no mutation. -/
def status (l : Ledger) (stock : String) : String :=
  match lookupL l stock with
  | some bal => "Balance for stock " ++ stock ++ " = " ++ toString bal
  | none => "Stock not found"

/-! ### Session dispatch (`clientThread`, src lines 245-282)

The URL extraction (`extractURL`) and percent-decoding (`url_decode`)
belong to the external request decoder (spec §1); the model starts from
the decoded URL string.  `clientThread` replaces `&` and `=` by spaces
and reads `dummy >> trans >> dummy >> stock >> dummy >> amount` from an
`istringstream`. -/

/-- The two `std::replace` calls (src lines 255-256). -/
def replAmpEq (c : Char) : Char :=
  if c = '&' ∨ c = '=' then ' ' else c

/-- `istringstream` whitespace tokenisation: split a character list into
maximal space-free words, accumulating the current word reversed. -/
def wordsAux : List Char → List Char → List (List Char)
  | [], acc => if acc = [] then [] else [acc.reverse]
  | c :: rest, acc =>
      if c = ' ' then
        if acc = [] then wordsAux rest []
        else acc.reverse :: wordsAux rest []
      else wordsAux rest (c :: acc)

/-- Value of a digit string. -/
def digitsVal (cs : List Char) : Nat :=
  cs.foldl (fun acc c => acc * 10 + (c.toNat - 48)) 0

/-- Whether a token is a nonempty digit string. -/
def isDigits (cs : List Char) : Bool :=
  !cs.isEmpty && cs.all (·.isDigit)

/-- `istringstream >> amount` for `unsigned int amount` (C++11
semantics): a missing token or a failed extraction stores `0`; an
in-range digit token stores its value; an out-of-range digit token stores
`UINT_MAX` (with `failbit`); a `-`-prefixed digit token is wrapped modulo
`2 ^ 32`. -/
def readUInt : Option (List Char) → Nat
  | none => 0
  | some t =>
      if isDigits t then min (digitsVal t) (M32 - 1)
      else
        match t with
        | '-' :: rest =>
            if isDigits rest then (M32 - digitsVal rest % M32) % M32 else 0
        | _ => 0

/-- The field extraction of src lines 255-261: after the replacements,
word 1 is `trans`, word 3 is `stock`, word 5 is `amount` (a string field
that is never reached stays default-initialised, i.e. empty / `0`). -/
def parseRequest (url : String) : String × String × Nat :=
  let toks := wordsAux (url.toList.map replAmpEq) []
  (String.mk (toks.getD 1 []), String.mk (toks.getD 3 []),
    readUInt (toks.get? 5))

/-- The operation dispatch of src lines 263-275: `msg` defaults to
"Invalid request" and is replaced only when `trans` matches one of the
five operation names.  A `buy` that suspends forever is `none`. -/
def dispatch (l : Ledger) (trans stock : String) (amount : Nat) :
    Option (String × Ledger) :=
  if trans = "reset" then some (reset l)
  else if trans = "create" then some (create l stock amount)
  else if trans = "buy" then buy l stock amount
  else if trans = "sell" then some (sell l stock amount)
  else if trans = "status" then some (status l stock, l)
  else some ("Invalid request", l)

/-- `clientThread` (src lines 245-282): parse the decoded URL, then
dispatch. -/
def clientThread (l : Ledger) (url : String) : Option (String × Ledger) :=
  let p := parseRequest url
  dispatch l p.1 p.2.1 p.2.2

/-! ### Small-step interleaving model

Each session thread executes one transaction; every C++ statement of
`buy`/`sell`/`create`/`reset` is one atomic step.  The per-stock mutex
(`Stock::mutex`) is a lock table keyed by stock name; the condition
variable `sm::buyCond` is modelled by letting a waiter attempt to
re-acquire the lock and re-evaluate its predicate whenever the lock is
free (C++ permits spurious wake-ups, so this over-approximates the
notified behaviour; `notify_all` itself needs no step).  `create` and
`reset` mutate the map without taking any lock, exactly as the source
does. -/

/-- Program counter of a session thread, one constructor per statement
boundary of the source:

* buy (src 105-126): `bStart` = the `find` check of line 108; `bWait` =
  not holding the lock, about to (re-)acquire it (line 114 /
  re-acquisition inside `buyCond.wait`); `bCheck` = holding the lock,
  about to evaluate `amount <= balance` (lines 115-117); `bDec` =
  predicate seen true, lock still held, about to run
  `balance -= amount` (line 119); `bDone s a` = returned
  success for a fulfilled buy of `a` on `s`; `bNotFound` = returned
  "Stock not found"; `bCrashed` = `stockMap.at(stock)` threw
  `std::out_of_range` inside the wait predicate (uncaught in a detached
  thread, i.e. `std::terminate`).
* sell (src 139-158): `sStart` (line 142 check), `sWait` (line 146
  lock), `sApply` (lines 148-151, increment then `notify_all`),
  `sDone`/`sNotFound`.
* create (src 78-92): `cStart` (line 81 check), `cIns`
  (line 83, `stockMap[stock].name = stock`, whose `operator[]`
  default-inserts the entry), `cSetBal` (line 84,
  `stockMap[stock].balance = amount`), `cDone`/`cExists` — no lock is
  ever taken.
* reset (src 62-65): `rStart` (the unlocked `stockMap.clear()`),
  `rDone`. -/
inductive TPC where
  | bStart (s : String) (a : Nat)
  | bWait (s : String) (a : Nat)
  | bCheck (s : String) (a : Nat)
  | bDec (s : String) (a : Nat)
  | bDone (s : String) (a : Nat)
  | bNotFound
  | bCrashed
  | sStart (s : String) (a : Nat)
  | sWait (s : String) (a : Nat)
  | sApply (s : String) (a : Nat)
  | sDone (s : String) (a : Nat)
  | sNotFound
  | cStart (s : String) (a : Nat)
  | cIns (s : String) (a : Nat)
  | cSetBal (s : String) (a : Nat)
  | cDone (s : String) (a : Nat)
  | cExists (s : String)
  | rStart
  | rDone
  deriving DecidableEq, Repr

/-- The response message a finished thread has returned, `none` while it
is still running (or was killed by the uncaught exception). -/
def msgOf : TPC → Option String
  | .bDone s _ => some ("Stock " ++ s ++ "\x27s balance updated")
  | .bNotFound => some "Stock not found"
  | .sDone s _ => some ("Stock " ++ s ++ "\x27s balance updated")
  | .sNotFound => some "Stock not found"
  | .cDone s a =>
      some ("Stock " ++ s ++ " created with balance = " ++ toString a)
  | .cExists s => some ("Stock " ++ s ++ " already exists")
  | .rDone => some "Stocks reset"
  | _ => none

/-- Shared state: the stock map, the per-stock mutexes (name of the stock
whose `Stock::mutex` is held, mapped to the holding thread id), and the
session threads. -/
structure Exch where
  ledger : Ledger
  locks : List (String × Nat)
  threads : List TPC
  deriving DecidableEq, Repr

/-- Unlock: drop every lock-table entry for `s` (the guarded acquire
never creates duplicates, so this removes exactly the holder's entry). -/
def relAll : List (String × Nat) → String → List (String × Nat)
  | [], _ => []
  | (k, v) :: r, s => if k = s then relAll r s else (k, v) :: relAll r s

/-- One atomic step of thread `t`; `none` when `t` cannot move (finished,
killed, or blocked on a held mutex). -/
def step (e : Exch) (t : Nat) : Option Exch :=
  match e.threads.get? t with
  | none => none
  | some pc =>
    match pc with
    | .bStart s a =>
        if (lookupL e.ledger s).isSome then
          some { e with threads := e.threads.set t (.bWait s a) }
        else some { e with threads := e.threads.set t .bNotFound }
    | .bWait s a =>
        match lookupL e.locks s with
        | some _ => none
        | none =>
            some { ledger := insertD e.ledger s,
                   locks := (s, t) :: e.locks,
                   threads := e.threads.set t (.bCheck s a) }
    | .bCheck s a =>
        match lookupL e.ledger s with
        | none =>
            some { e with locks := relAll e.locks s,
                          threads := e.threads.set t .bCrashed }
        | some bal =>
            if a ≤ bal then
              some { e with threads := e.threads.set t (.bDec s a) }
            else
              some { e with locks := relAll e.locks s,
                            threads := e.threads.set t (.bWait s a) }
    | .bDec s a =>
        some { ledger := setL (insertD e.ledger s) s
                 (wsub ((lookupL e.ledger s).getD 0) a),
               locks := relAll e.locks s,
               threads := e.threads.set t (.bDone s a) }
    | .sStart s a =>
        if (lookupL e.ledger s).isSome then
          some { e with threads := e.threads.set t (.sWait s a) }
        else some { e with threads := e.threads.set t .sNotFound }
    | .sWait s a =>
        match lookupL e.locks s with
        | some _ => none
        | none =>
            some { ledger := insertD e.ledger s,
                   locks := (s, t) :: e.locks,
                   threads := e.threads.set t (.sApply s a) }
    | .sApply s a =>
        some { ledger := setL (insertD e.ledger s) s
                 (wadd ((lookupL e.ledger s).getD 0) a),
               locks := relAll e.locks s,
               threads := e.threads.set t (.sDone s a) }
    | .cStart s a =>
        if (lookupL e.ledger s).isSome then
          some { e with threads := e.threads.set t (.cExists s) }
        else some { e with threads := e.threads.set t (.cIns s a) }
    | .cIns s a =>
        some { e with ledger := insertD e.ledger s,
                      threads := e.threads.set t (.cSetBal s a) }
    | .cSetBal s a =>
        some { e with ledger := setL (insertD e.ledger s) s a,
                      threads := e.threads.set t (.cDone s a) }
    | .rStart =>
        some { e with ledger := [], threads := e.threads.set t .rDone }
    | .bDone _ _ | .bNotFound | .bCrashed | .sDone _ _ | .sNotFound
    | .cDone _ _ | .cExists _ | .rDone => none

/-- Run a schedule: at each tick the named thread takes its step if it
can (a blocked or finished thread leaves the state unchanged). -/
def runSched (e : Exch) (sched : List Nat) : Exch :=
  sched.foldl (fun s t => (step s t).getD s) e

/-- Entry state of a buy or sell session. -/
def entryBS : TPC → Bool
  | .bStart _ _ => true
  | .sStart _ _ => true
  | _ => false

/-- Well-formed initial state for the buy/sell protocol claims: no mutex
held, every thread a buy or sell session at its entry point, balances in
`unsigned int` range.  (`create`s are reflected by the initial ledger:
their unlocked two-statement bodies are treated in the C2 counterexample;
`reset` is treated in C6.) -/
def InitOK (e : Exch) : Prop :=
  e.locks = [] ∧ e.threads.all entryBS = true ∧
    e.ledger.all (fun p => p.2 < M32) = true

instance : DecidablePred InitOK := fun e => by
  unfold InitOK
  infer_instance

/-- Which lock a program counter is holding (only the three in-critical-
section states of buy and sell hold one). -/
def holdsLock : TPC → String → Prop
  | .bCheck s' _, s => s' = s
  | .bDec s' _, s => s' = s
  | .sApply s' _, s => s' = s
  | _, _ => False

/-- Per-thread inductive invariant of the buy/sell protocol: waiting
threads have passed the existence check; threads inside the critical
section hold the stock's mutex; a thread about to decrement has seen
`amount ≤ balance` with the lock held since that evaluation. -/
def pcInv (led : Ledger) (lks : List (String × Nat)) (t : Nat) :
    TPC → Prop
  | .bStart _ _ => True
  | .bWait s _ => (lookupL led s).isSome
  | .bCheck s _ => (lookupL led s).isSome = true ∧ lookupL lks s = some t
  | .bDec s a =>
      (∃ bal, lookupL led s = some bal ∧ a ≤ bal) ∧ lookupL lks s = some t
  | .bDone _ _ => True
  | .bNotFound => True
  | .bCrashed => False
  | .sStart _ _ => True
  | .sWait s _ => (lookupL led s).isSome
  | .sApply s _ => (lookupL led s).isSome = true ∧ lookupL lks s = some t
  | .sDone _ _ => True
  | .sNotFound => True
  | .cStart _ _ => False
  | .cIns _ _ => False
  | .cSetBal _ _ => False
  | .cDone _ _ => False
  | .cExists _ => False
  | .rStart => False
  | .rDone => False

/-- Global invariant: every thread satisfies its program-counter
invariant, every held lock is held by a thread inside the matching
critical section, and every stored balance is an `unsigned int`. -/
def Inv (e : Exch) : Prop :=
  (∀ t pc, e.threads.get? t = some pc → pcInv e.ledger e.locks t pc) ∧
  (∀ s t, lookupL e.locks s = some t →
    ∃ pc, e.threads.get? t = some pc ∧ holdsLock pc s) ∧
  (∀ s bal, lookupL e.ledger s = some bal → bal < M32)

/-- Amount consumed from `s` by a thread whose fulfilled buy has
completed. -/
def buyAmt (s : String) : TPC → Nat
  | .bDone s' a => if s' = s then a else 0
  | _ => 0

/-- Amount added to `s` by a completed sell. -/
def sellAmt (s : String) : TPC → Nat
  | .sDone s' a => if s' = s then a else 0
  | _ => 0

/-- Amount established for `s` by a completed create. -/
def createAmt (s : String) : TPC → Nat
  | .cDone s' a => if s' = s then a else 0
  | _ => 0

/-- Sum of all successful buy amounts on `s`. -/
def boughtSum (e : Exch) (s : String) : Nat :=
  (e.threads.map (buyAmt s)).sum

/-- Sum of all completed sell amounts on `s`. -/
def soldSum (e : Exch) (s : String) : Nat :=
  (e.threads.map (sellAmt s)).sum

/-- Sum of all completed create amounts on `s`. -/
def createdSum (e : Exch) (s : String) : Nat :=
  (e.threads.map (createAmt s)).sum

/-- Accounting bound: the current balance plus everything successfully
bought never exceeds the initially supplied balance plus everything
sold. -/
def Acct (init e : Exch) : Prop :=
  ∀ s, (lookupL e.ledger s).getD 0 + boughtSum e s ≤
    (lookupL init.ledger s).getD 0 + soldSum e s

/-! ### Admission-controller model (`runServer` + `clientThread` frame,
src lines 245-247, 279-281, 300-318)

The acceptor holds `sm::serverMutex` (taken by nobody else) and waits on
`sm::countCond` for `threadCount < maxThreads` before detaching a new
session thread; crucially the source increments `sm::threadCount` in the
*child* (`clientThread`, line 247), not in the acceptor before spawning. -/

/-- A session thread of the admission model: spawned but not yet at line
247 (`start`), between the increment and the decrement of `threadCount`,
i.e. inside the transaction processor (`active`), finished (`finished`). -/
inductive SPC where
  | start
  | active
  | finished
  deriving DecidableEq, Repr

/-- Admission state: the bound, the shared atomic counter, the spawned
sessions. -/
structure Srv where
  maxThreads : Nat
  threadCount : Nat
  sessions : List SPC
  deriving DecidableEq, Repr

/-- One step: `none` is the acceptor (accept a connection, pass the
`threadCount < maxThreads` gate, detach a new session); `some i` is
session `i` executing its next statement (`threadCount++` at entry,
`threadCount--` at exit). -/
def stepSrv (e : Srv) (w : Option Nat) : Option Srv :=
  match w with
  | none =>
      if e.threadCount < e.maxThreads then
        some { e with sessions := e.sessions ++ [.start] }
      else none
  | some i =>
      match e.sessions.get? i with
      | some .start =>
          some { e with threadCount := e.threadCount + 1,
                        sessions := e.sessions.set i .active }
      | some .active =>
          some { e with threadCount := e.threadCount - 1,
                        sessions := e.sessions.set i .finished }
      | _ => none

/-- Run an admission schedule. -/
def runSrv (e : Srv) (sched : List (Option Nat)) : Srv :=
  sched.foldl (fun s w => (stepSrv s w).getD s) e

/-- Number of sessions concurrently inside the transaction processor. -/
def numActive (e : Srv) : Nat :=
  (e.sessions.filter (fun p => p == SPC.active)).length

/-! ### Association-list lemmas -/

theorem lookupL_setL_self (l : Ledger) (s : String) (v : Nat) :
    lookupL (setL l s v) s = some v := by
  induction l with
  | nil => simp [setL, lookupL]
  | cons p t ih =>
      obtain ⟨k, w⟩ := p
      by_cases h : k = s
      · simp [setL, h, lookupL]
      · simp [setL, h, lookupL, ih]

theorem lookupL_setL_ne (l : Ledger) (s s' : String) (v : Nat)
    (h : s' ≠ s) : lookupL (setL l s v) s' = lookupL l s' := by
  induction l with
  | nil => simp [setL, lookupL, Ne.symm h]
  | cons p t ih =>
      obtain ⟨k, w⟩ := p
      by_cases hk : k = s
      · subst hk
        simp [setL, lookupL, Ne.symm h]
      · simp [setL, hk, lookupL, ih]

theorem lookupL_append_single_ne (l : Ledger) (s s' : String) (v : Nat)
    (h : s' ≠ s) : lookupL (l ++ [(s, v)]) s' = lookupL l s' := by
  induction l with
  | nil => simp [lookupL, Ne.symm h]
  | cons p t ih =>
      obtain ⟨k, w⟩ := p
      by_cases hk : k = s'
      · simp [lookupL, hk]
      · simp [lookupL, hk, ih]

theorem lookupL_insertD_self (l : Ledger) (s : String) :
    lookupL (insertD l s) s = some ((lookupL l s).getD 0) := by
  unfold insertD
  cases h : lookupL l s with
  | some v => simp [h]
  | none =>
      induction l with
      | nil => simp [lookupL]
      | cons p t ih =>
          obtain ⟨k, w⟩ := p
          by_cases hk : k = s
          · simp [lookupL, hk] at h
          · simp [lookupL, hk] at h ⊢
            exact ih h

theorem lookupL_insertD_ne (l : Ledger) (s s' : String) (h : s' ≠ s) :
    lookupL (insertD l s) s' = lookupL l s' := by
  unfold insertD
  cases hl : lookupL l s with
  | some v => rfl
  | none => exact lookupL_append_single_ne l s s' 0 h

/-- `setL` at a key whose first entry already stores the written value is
the identity. -/
theorem setL_lookup_self (l : Ledger) (s : String) (b : Nat)
    (h : lookupL l s = some b) : setL l s b = l := by
  induction l with
  | nil => simp [lookupL] at h
  | cons p t ih =>
      obtain ⟨k, w⟩ := p
      by_cases hk : k = s
      · subst hk
        simp [lookupL] at h
        simp [setL, h]
      · simp [lookupL, hk] at h
        simp [setL, hk, ih h]

/-- Writing to a key absent from `l` after default-inserting it equals
writing directly. -/
theorem setL_append_absent (l : Ledger) (s : String) (a : Nat)
    (h : lookupL l s = none) : setL (l ++ [(s, 0)]) s a = setL l s a := by
  induction l with
  | nil => simp [setL]
  | cons p t ih =>
      obtain ⟨k, w⟩ := p
      by_cases hk : k = s
      · simp [lookupL, hk] at h
      · simp [lookupL, hk] at h
        simp [setL, hk, ih h]

/-- Unsigned subtraction is exact below the modulus. -/
theorem wsub_eq_sub (b a : Nat) (hb : b < M32) (hab : a ≤ b) :
    wsub b a = b - a := by
  have ha : a < M32 := lt_of_le_of_lt hab hb
  unfold wsub
  rw [Nat.mod_eq_of_lt ha]
  have h1 : b + (M32 - a) = M32 + (b - a) := by omega
  rw [h1, Nat.add_mod_left, Nat.mod_eq_of_lt (by omega)]

/-- Unsigned addition below the modulus is exact. -/
theorem wadd_eq_add (b a : Nat) (h : b + a < M32) : wadd b a = b + a :=
  Nat.mod_eq_of_lt h

theorem wadd_lt (b a : Nat) : wadd b a < M32 :=
  Nat.mod_lt _ (by unfold M32; omega)

theorem wsub_lt (b a : Nat) : wsub b a < M32 :=
  Nat.mod_lt _ (by unfold M32; omega)

theorem get?_lt_length {α : Type} (l : List α) (i : Nat) (x : α)
    (h : l.get? i = some x) : i < l.length := by
  induction l generalizing i with
  | nil => simp [List.get?] at h
  | cons a t ih =>
      cases i with
      | zero => simp
      | succ n =>
          simp only [List.get?] at h
          simpa using ih n h

theorem get?_set_self {α : Type} (l : List α) (i : Nat) (a : α)
    (h : i < l.length) : (l.set i a).get? i = some a := by
  induction l generalizing i with
  | nil => simp at h
  | cons b t ih =>
      cases i with
      | zero => rfl
      | succ n =>
          simp only [List.set, List.get?]
          exact ih n (by simpa using h)

theorem get?_set_ne {α : Type} (l : List α) (i j : Nat) (a : α)
    (h : j ≠ i) : (l.set i a).get? j = l.get? j := by
  induction l generalizing i j with
  | nil => rfl
  | cons b t ih =>
      cases i with
      | zero =>
          cases j with
          | zero => exact absurd rfl h
          | succ m => rfl
      | succ n =>
          cases j with
          | zero => rfl
          | succ m =>
              simp only [List.set, List.get?]
              exact ih n m (fun hc => h (by omega))

theorem sumMap_set {α : Type} (l : List α) (i : Nat) (old new : α)
    (f : α → Nat) (h : l.get? i = some old) :
    ((l.set i new).map f).sum + f old = (l.map f).sum + f new := by
  induction l generalizing i with
  | nil => simp [List.get?] at h
  | cons b t ih =>
      cases i with
      | zero =>
          simp only [List.get?] at h
          cases h
          simp [List.set]
          omega
      | succ n =>
          simp only [List.get?] at h
          have ih' := ih n h
          simp only [List.set, List.map, List.sum_cons]
          omega

theorem lookupL_relAll_self (l : List (String × Nat)) (s : String) :
    lookupL (relAll l s) s = none := by
  induction l with
  | nil => rfl
  | cons p t ih =>
      obtain ⟨k, v⟩ := p
      by_cases hk : k = s
      · simp [relAll, hk, ih]
      · simp [relAll, hk, lookupL, ih]

theorem lookupL_relAll_ne (l : List (String × Nat)) (s s' : String)
    (h : s' ≠ s) : lookupL (relAll l s) s' = lookupL l s' := by
  induction l with
  | nil => rfl
  | cons p t ih =>
      obtain ⟨k, v⟩ := p
      by_cases hk : k = s
      · subst hk
        simp [relAll, lookupL, Ne.symm h, ih]
      · simp [relAll, hk, lookupL, ih]

theorem lookupL_mem (l : Ledger) (s : String) (b : Nat)
    (h : lookupL l s = some b) : (s, b) ∈ l := by
  induction l with
  | nil => simp [lookupL] at h
  | cons p t ih =>
      obtain ⟨k, v⟩ := p
      by_cases hk : k = s
      · subst hk
        simp [lookupL] at h
        simp [h]
      · simp [lookupL, hk] at h
        simp [ih h]

theorem sum_map_zero {α : Type} (l : List α) (f : α → Nat)
    (h : ∀ x ∈ l, f x = 0) : (l.map f).sum = 0 := by
  induction l with
  | nil => rfl
  | cons b t ih =>
      simp [h b (by simp), ih fun x hx => h x (by simp [hx])]

/-! ### Preservation of the buy/sell protocol invariant -/

/-- A step that only rewrites thread `t`'s program counter (ledger and
lock table unchanged) preserves `Inv`, provided the new counter satisfies
its own invariant and keeps every lock the old one held. -/
theorem Inv_threads_update (e : Exch) (t : Nat) (pc pc' : TPC)
    (hg : e.threads.get? t = some pc) (hI : Inv e)
    (hnew : pcInv e.ledger e.locks t pc')
    (hlock : ∀ s, holdsLock pc s → holdsLock pc' s) :
    Inv { e with threads := e.threads.set t pc' } := by
  obtain ⟨hpcs, hlks, hbal⟩ := hI
  have ht : t < e.threads.length := get?_lt_length _ _ _ hg
  refine ⟨?_, ?_, hbal⟩
  · intro t' pc'' hgt'
    by_cases hT : t' = t
    · subst hT
      rw [get?_set_self _ _ _ ht] at hgt'
      cases hgt'
      exact hnew
    · rw [get?_set_ne _ _ _ _ hT] at hgt'
      exact hpcs t' pc'' hgt'
  · intro s t' hl
    obtain ⟨pc₀, hg₀, hh₀⟩ := hlks s t' hl
    by_cases hT : t' = t
    · subst hT
      rw [hg] at hg₀
      cases hg₀
      exact ⟨pc', get?_set_self _ _ _ ht, hlock s hh₀⟩
    · exact ⟨pc₀, by rw [get?_set_ne _ _ _ _ hT]; exact hg₀, hh₀⟩

/-- Acquiring the free lock of `s` (with the `operator[]`
default-insert of src line 114/146) preserves `Inv`. -/
theorem Inv_acquire (e : Exch) (t : Nat) (s : String) (pc pc' : TPC)
    (hg : e.threads.get? t = some pc) (hI : Inv e)
    (hfree : lookupL e.locks s = none)
    (hold_old : ∀ s', ¬ holdsLock pc s')
    (hnew : pcInv (insertD e.ledger s) ((s, t) :: e.locks) t pc')
    (hown : holdsLock pc' s)
    (honly : ∀ s', holdsLock pc' s' → s' = s) :
    Inv ⟨insertD e.ledger s, (s, t) :: e.locks, e.threads.set t pc'⟩ := by
  obtain ⟨hpcs, hlks, hbal⟩ := hI
  have ht : t < e.threads.length := get?_lt_length _ _ _ hg
  have hcons : ∀ x, lookupL ((s, t) :: e.locks) x =
      if s = x then some t else lookupL e.locks x := fun x => rfl
  have hpresT : ∀ x, (lookupL e.ledger x).isSome = true →
      (lookupL (insertD e.ledger s) x).isSome = true := by
    intro x hx
    by_cases hs : x = s
    · subst hs
      rw [lookupL_insertD_self]
      rfl
    · rw [lookupL_insertD_ne _ _ _ hs]
      exact hx
  have hlockT : ∀ x t', t' ≠ t → lookupL e.locks x = some t' →
      lookupL ((s, t) :: e.locks) x = some t' := by
    intro x t' hT hx
    rw [hcons]
    by_cases hs : s = x
    · subst hs
      rw [hfree] at hx
      cases hx
    · rw [if_neg hs]
      exact hx
  refine ⟨?_, ?_, ?_⟩
  · intro t' pc'' hgt'
    by_cases hT : t' = t
    · subst hT
      rw [get?_set_self _ _ _ ht] at hgt'
      cases hgt'
      exact hnew
    · rw [get?_set_ne _ _ _ _ hT] at hgt'
      have hold := hpcs t' pc'' hgt'
      cases pc'' with
      | bStart s'' a'' => trivial
      | bWait s'' a'' => exact hpresT s'' hold
      | bCheck s'' a'' =>
          exact ⟨hpresT s'' hold.1, hlockT s'' t' hT hold.2⟩
      | bDec s'' a'' =>
          obtain ⟨⟨bal, hb, hab⟩, hlk⟩ := hold
          have hs : s'' ≠ s := by
            intro hc
            subst hc
            rw [hfree] at hlk
            cases hlk
          exact ⟨⟨bal, by rw [lookupL_insertD_ne _ _ _ hs]; exact hb, hab⟩,
            hlockT s'' t' hT hlk⟩
      | bDone s'' a'' => trivial
      | bNotFound => trivial
      | bCrashed => exact hold.elim
      | sStart s'' a'' => trivial
      | sWait s'' a'' => exact hpresT s'' hold
      | sApply s'' a'' =>
          exact ⟨hpresT s'' hold.1, hlockT s'' t' hT hold.2⟩
      | sDone s'' a'' => trivial
      | sNotFound => trivial
      | cStart s'' a'' => exact hold.elim
      | cIns s'' a'' => exact hold.elim
      | cSetBal s'' a'' => exact hold.elim
      | cDone s'' a'' => exact hold.elim
      | cExists s'' => exact hold.elim
      | rStart => exact hold.elim
      | rDone => exact hold.elim
  · intro s'' t'' hl
    rw [hcons] at hl
    by_cases hs : s = s''
    · subst hs
      rw [if_pos rfl] at hl
      cases hl
      refine ⟨pc', get?_set_self _ _ _ ht, hown⟩
    · rw [if_neg hs] at hl
      obtain ⟨pc₀, hg₀, hh₀⟩ := hlks s'' t'' hl
      by_cases hT : t'' = t
      · subst hT
        rw [hg] at hg₀
        cases hg₀
        exact absurd hh₀ (hold_old s'')
      · exact ⟨pc₀, by rw [get?_set_ne _ _ _ _ hT]; exact hg₀, hh₀⟩
  · intro s'' b hb
    by_cases hs : s'' = s
    · subst hs
      rw [lookupL_insertD_self] at hb
      cases hb
      cases hv : lookupL e.ledger s'' with
      | none => simp [hv]; unfold M32; omega
      | some v =>
          have := hbal s'' v hv
          simp [hv]
          exact this
    · rw [lookupL_insertD_ne _ _ _ hs] at hb
      exact hbal s'' b hb

/-- Releasing the lock of `s` (held by `t`) while possibly rewriting the
balance of `s` preserves `Inv`. -/
theorem Inv_release (e : Exch) (t : Nat) (s : String) (pc pc' : TPC)
    (led' : Ledger)
    (hg : e.threads.get? t = some pc) (hI : Inv e)
    (hownt : lookupL e.locks s = some t)
    (hold_old : ∀ s', holdsLock pc s' → s' = s)
    (hnew : pcInv led' (relAll e.locks s) t pc')
    (hpres : ∀ s'', s'' ≠ s → lookupL led' s'' = lookupL e.ledger s'')
    (hs_some : (lookupL led' s).isSome = true)
    (hbal' : ∀ s'' b, lookupL led' s'' = some b → b < M32) :
    Inv ⟨led', relAll e.locks s, e.threads.set t pc'⟩ := by
  obtain ⟨hpcs, hlks, hbal⟩ := hI
  have ht : t < e.threads.length := get?_lt_length _ _ _ hg
  have hpresT : ∀ x, (lookupL e.ledger x).isSome = true →
      (lookupL led' x).isSome = true := by
    intro x hx
    by_cases hs : x = s
    · subst hs
      exact hs_some
    · rw [hpres x hs]
      exact hx
  have hlockT : ∀ x t', t' ≠ t → lookupL e.locks x = some t' →
      lookupL (relAll e.locks s) x = some t' := by
    intro x t' hT hx
    by_cases hxs : x = s
    · subst hxs
      rw [hownt] at hx
      cases hx
      exact absurd rfl hT
    · rw [lookupL_relAll_ne _ _ _ hxs]
      exact hx
  have hledT : ∀ x t', t' ≠ t → lookupL e.locks x = some t' →
      lookupL led' x = lookupL e.ledger x := by
    intro x t' hT hx
    refine hpres x ?_
    intro hxs
    subst hxs
    rw [hownt] at hx
    cases hx
    exact absurd rfl hT
  refine ⟨?_, ?_, hbal'⟩
  · intro t' pc'' hgt'
    by_cases hT : t' = t
    · subst hT
      rw [get?_set_self _ _ _ ht] at hgt'
      cases hgt'
      exact hnew
    · rw [get?_set_ne _ _ _ _ hT] at hgt'
      have hold := hpcs t' pc'' hgt'
      cases pc'' with
      | bStart s'' a'' => trivial
      | bWait s'' a'' => exact hpresT s'' hold
      | bCheck s'' a'' =>
          exact ⟨by rw [hledT s'' t' hT hold.2]; exact hold.1,
            hlockT s'' t' hT hold.2⟩
      | bDec s'' a'' =>
          obtain ⟨⟨bal, hb, hab⟩, hlk⟩ := hold
          exact ⟨⟨bal, by rw [hledT s'' t' hT hlk]; exact hb, hab⟩,
            hlockT s'' t' hT hlk⟩
      | bDone s'' a'' => trivial
      | bNotFound => trivial
      | bCrashed => exact hold.elim
      | sStart s'' a'' => trivial
      | sWait s'' a'' => exact hpresT s'' hold
      | sApply s'' a'' =>
          exact ⟨by rw [hledT s'' t' hT hold.2]; exact hold.1,
            hlockT s'' t' hT hold.2⟩
      | sDone s'' a'' => trivial
      | sNotFound => trivial
      | cStart s'' a'' => exact hold.elim
      | cIns s'' a'' => exact hold.elim
      | cSetBal s'' a'' => exact hold.elim
      | cDone s'' a'' => exact hold.elim
      | cExists s'' => exact hold.elim
      | rStart => exact hold.elim
      | rDone => exact hold.elim
  · intro s'' t'' hl
    by_cases hs : s'' = s
    · subst hs
      rw [lookupL_relAll_self] at hl
      cases hl
    · rw [lookupL_relAll_ne _ _ _ hs] at hl
      obtain ⟨pc₀, hg₀, hh₀⟩ := hlks s'' t'' hl
      by_cases hT : t'' = t
      · subst hT
        rw [hg] at hg₀
        cases hg₀
        exact absurd (hold_old s'' hh₀) hs
      · exact ⟨pc₀, by rw [get?_set_ne _ _ _ _ hT]; exact hg₀, hh₀⟩

/-- Every step of the model preserves `Inv`. -/
theorem step_Inv (e : Exch) (t : Nat) (hI : Inv e) :
    Inv ((step e t).getD e) := by
  cases hg : e.threads.get? t with
  | none =>
      have hg' : e.threads[t]? = none := by
        rw [← List.get?_eq_getElem?]
        exact hg
      simpa [step, hg'] using hI
  | some pc =>
      have hpc0 := hI.1 t pc hg
      have hg' : e.threads[t]? = some pc := by
        rw [← List.get?_eq_getElem?]
        exact hg
      cases pc with
      | bStart s a =>
          by_cases hp : (lookupL e.ledger s).isSome = true
          · have hstep : (step e t).getD e =
                { e with threads := e.threads.set t (.bWait s a) } := by
              simp [step, hg', hp]
            rw [hstep]
            refine Inv_threads_update e t _ (.bWait s a) hg hI hp ?_
            intro s' h
            exact h.elim
          · have hstep : (step e t).getD e =
                { e with threads := e.threads.set t .bNotFound } := by
              simp [step, hg', hp]
            rw [hstep]
            refine Inv_threads_update e t _ .bNotFound hg hI trivial ?_
            intro s' h
            exact h.elim
      | bWait s a =>
          cases hfree : lookupL e.locks s with
          | some t' => simpa [step, hg', hfree] using hI
          | none =>
              have hstep : (step e t).getD e =
                  ⟨insertD e.ledger s, (s, t) :: e.locks,
                    e.threads.set t (.bCheck s a)⟩ := by
                simp [step, hg', hfree]
              rw [hstep]
              refine Inv_acquire e t s _ (.bCheck s a) hg hI hfree
                (fun s' h => h.elim) ⟨?_, ?_⟩ rfl (fun s' h => h.symm)
              · rw [lookupL_insertD_self]
                rfl
              · show (if s = s then some t else lookupL e.locks s) = some t
                rw [if_pos rfl]
      | bCheck s a =>
          obtain ⟨hpres, hownt⟩ := hpc0
          cases hll : lookupL e.ledger s with
          | none =>
              rw [hll] at hpres
              cases hpres
          | some bal =>
              by_cases hab : a ≤ bal
              · have hstep : (step e t).getD e =
                    { e with threads := e.threads.set t (.bDec s a) } := by
                  simp [step, hg', hll, hab]
                rw [hstep]
                refine Inv_threads_update e t _ (.bDec s a) hg hI
                  ⟨⟨bal, hll, hab⟩, hownt⟩ ?_
                intro s' h
                exact h
              · have hstep : (step e t).getD e =
                    ⟨e.ledger, relAll e.locks s,
                      e.threads.set t (.bWait s a)⟩ := by
                  simp [step, hg', hll, hab]
                rw [hstep]
                refine Inv_release e t s _ (.bWait s a) e.ledger hg hI hownt
                  (fun s' h => h.symm) ?_ (fun s'' _ => rfl) ?_ hI.2.2
                · show (lookupL e.ledger s).isSome = true
                  rw [hll]
                  rfl
                · rw [hll]
                  rfl
      | bDec s a =>
          obtain ⟨⟨bal, hll, hab⟩, hownt⟩ := hpc0
          have hbal32 := hI.2.2 s bal hll
          have hid : insertD e.ledger s = e.ledger := by
            unfold insertD
            rw [hll]
          have hw : wsub ((lookupL e.ledger s).getD 0) a = bal - a := by
            rw [hll]
            exact wsub_eq_sub bal a hbal32 hab
          have hstep : (step e t).getD e =
              ⟨setL e.ledger s (bal - a), relAll e.locks s,
                e.threads.set t (.bDone s a)⟩ := by
            simp [step, hg', hid, hw]
          rw [hstep]
          refine Inv_release e t s _ (.bDone s a) (setL e.ledger s (bal - a))
            hg hI hownt (fun s' h => h.symm) trivial
            (fun s'' hs => lookupL_setL_ne _ _ _ _ hs) ?_ ?_
          · rw [lookupL_setL_self]
            rfl
          · intro s'' b hb
            by_cases hs : s'' = s
            · subst hs
              rw [lookupL_setL_self] at hb
              cases hb
              omega
            · rw [lookupL_setL_ne _ _ _ _ hs] at hb
              exact hI.2.2 s'' b hb
      | bDone s a => simpa [step, hg'] using hI
      | bNotFound => simpa [step, hg'] using hI
      | bCrashed => exact hpc0.elim
      | sStart s a =>
          by_cases hp : (lookupL e.ledger s).isSome = true
          · have hstep : (step e t).getD e =
                { e with threads := e.threads.set t (.sWait s a) } := by
              simp [step, hg', hp]
            rw [hstep]
            refine Inv_threads_update e t _ (.sWait s a) hg hI hp ?_
            intro s' h
            exact h.elim
          · have hstep : (step e t).getD e =
                { e with threads := e.threads.set t .sNotFound } := by
              simp [step, hg', hp]
            rw [hstep]
            refine Inv_threads_update e t _ .sNotFound hg hI trivial ?_
            intro s' h
            exact h.elim
      | sWait s a =>
          cases hfree : lookupL e.locks s with
          | some t' => simpa [step, hg', hfree] using hI
          | none =>
              have hstep : (step e t).getD e =
                  ⟨insertD e.ledger s, (s, t) :: e.locks,
                    e.threads.set t (.sApply s a)⟩ := by
                simp [step, hg', hfree]
              rw [hstep]
              refine Inv_acquire e t s _ (.sApply s a) hg hI hfree
                (fun s' h => h.elim) ⟨?_, ?_⟩ rfl (fun s' h => h.symm)
              · rw [lookupL_insertD_self]
                rfl
              · show (if s = s then some t else lookupL e.locks s) = some t
                rw [if_pos rfl]
      | sApply s a =>
          obtain ⟨hpres, hownt⟩ := hpc0
          cases hll : lookupL e.ledger s with
          | none =>
              rw [hll] at hpres
              cases hpres
          | some bal =>
              have hid : insertD e.ledger s = e.ledger := by
                unfold insertD
                rw [hll]
              have hstep : (step e t).getD e =
                  ⟨setL e.ledger s (wadd bal a), relAll e.locks s,
                    e.threads.set t (.sDone s a)⟩ := by
                simp [step, hg', hid, hll]
              rw [hstep]
              refine Inv_release e t s _ (.sDone s a)
                (setL e.ledger s (wadd bal a)) hg hI hownt
                (fun s' h => h.symm) trivial
                (fun s'' hs => lookupL_setL_ne _ _ _ _ hs) ?_ ?_
              · rw [lookupL_setL_self]
                rfl
              · intro s'' b hb
                by_cases hs : s'' = s
                · subst hs
                  rw [lookupL_setL_self] at hb
                  cases hb
                  exact wadd_lt bal a
                · rw [lookupL_setL_ne _ _ _ _ hs] at hb
                  exact hI.2.2 s'' b hb
      | sDone s a => simpa [step, hg'] using hI
      | sNotFound => simpa [step, hg'] using hI
      | cStart s a => exact hpc0.elim
      | cIns s a => exact hpc0.elim
      | cSetBal s a => exact hpc0.elim
      | cDone s a => exact hpc0.elim
      | cExists s => exact hpc0.elim
      | rStart => exact hpc0.elim
      | rDone => simpa [step, hg'] using hI

/-- A well-formed initial state satisfies `Inv`. -/
theorem Inv_init (e : Exch) (h : InitOK e) : Inv e := by
  obtain ⟨hlk, hth, hbd⟩ := h
  refine ⟨?_, ?_, ?_⟩
  · intro t pc hg
    have hmem : pc ∈ e.threads := List.get?_mem hg
    have := List.all_eq_true.mp hth pc hmem
    cases pc with
    | bStart s a => trivial
    | sStart s a => trivial
    | bWait s a => simp [entryBS] at this
    | bCheck s a => simp [entryBS] at this
    | bDec s a => simp [entryBS] at this
    | bDone s a => simp [entryBS] at this
    | bNotFound => simp [entryBS] at this
    | bCrashed => simp [entryBS] at this
    | sWait s a => simp [entryBS] at this
    | sApply s a => simp [entryBS] at this
    | sDone s a => simp [entryBS] at this
    | sNotFound => simp [entryBS] at this
    | cStart s a => simp [entryBS] at this
    | cIns s a => simp [entryBS] at this
    | cSetBal s a => simp [entryBS] at this
    | cDone s a => simp [entryBS] at this
    | cExists s => simp [entryBS] at this
    | rStart => simp [entryBS] at this
    | rDone => simp [entryBS] at this
  · intro s t hl
    rw [hlk] at hl
    cases hl
  · intro s bal hb
    have hmem := lookupL_mem e.ledger s bal hb
    exact of_decide_eq_true (List.all_eq_true.mp hbd (s, bal) hmem)

/-- `Inv` holds along every schedule. -/
theorem Inv_run_aux (e : Exch) (hI : Inv e) (sched : List Nat) :
    Inv (runSched e sched) := by
  induction sched generalizing e with
  | nil => exact hI
  | cons t rest ih =>
      have h1 : runSched e (t :: rest) = runSched ((step e t).getD e) rest :=
        rfl
      rw [h1]
      exact ih _ (step_Inv e t hI)

/-- `Inv` is reachable from any well-formed initial state. -/
theorem Inv_runSched (e : Exch) (h : InitOK e) (sched : List Nat) :
    Inv (runSched e sched) :=
  Inv_run_aux e (Inv_init e h) sched

theorem getD_insertD (l : Ledger) (s x : String) :
    (lookupL (insertD l s) x).getD 0 = (lookupL l x).getD 0 := by
  by_cases hs : x = s
  · subst hs
    rw [lookupL_insertD_self]
    rfl
  · rw [lookupL_insertD_ne _ _ _ hs]

/-- Every step of the model preserves the accounting bound. -/
theorem step_Acct (init e : Exch) (t : Nat) (hI : Inv e)
    (hA : Acct init e) : Acct init ((step e t).getD e) := by
  cases hg : e.threads.get? t with
  | none =>
      have hg' : e.threads[t]? = none := by
        rw [← List.get?_eq_getElem?]
        exact hg
      simpa [step, hg'] using hA
  | some pc =>
      have hpc0 := hI.1 t pc hg
      have hg' : e.threads[t]? = some pc := by
        rw [← List.get?_eq_getElem?]
        exact hg
      cases pc with
      | bStart s a =>
          by_cases hp : (lookupL e.ledger s).isSome = true
          · have hstep : (step e t).getD e =
                { e with threads := e.threads.set t (.bWait s a) } := by
              simp [step, hg', hp]
            rw [hstep]
            intro s''
            have hbuy := sumMap_set e.threads t _ (TPC.bWait s a)
              (buyAmt s'') hg
            have hsell := sumMap_set e.threads t _ (TPC.bWait s a)
              (sellAmt s'') hg
            have hA' := hA s''
            have e1 : buyAmt s'' (TPC.bStart s a) = 0 := rfl
            have e2 : buyAmt s'' (TPC.bWait s a) = 0 := rfl
            have e3 : sellAmt s'' (TPC.bStart s a) = 0 := rfl
            have e4 : sellAmt s'' (TPC.bWait s a) = 0 := rfl
            simp only [boughtSum, soldSum] at hbuy hsell hA' ⊢
            omega
          · have hstep : (step e t).getD e =
                { e with threads := e.threads.set t .bNotFound } := by
              simp [step, hg', hp]
            rw [hstep]
            intro s''
            have hbuy := sumMap_set e.threads t _ TPC.bNotFound
              (buyAmt s'') hg
            have hsell := sumMap_set e.threads t _ TPC.bNotFound
              (sellAmt s'') hg
            have hA' := hA s''
            have e1 : buyAmt s'' (TPC.bStart s a) = 0 := rfl
            have e2 : buyAmt s'' TPC.bNotFound = 0 := rfl
            have e3 : sellAmt s'' (TPC.bStart s a) = 0 := rfl
            have e4 : sellAmt s'' TPC.bNotFound = 0 := rfl
            simp only [boughtSum, soldSum] at hbuy hsell hA' ⊢
            omega
      | bWait s a =>
          cases hfree : lookupL e.locks s with
          | some t' => simpa [step, hg', hfree] using hA
          | none =>
              have hstep : (step e t).getD e =
                  ⟨insertD e.ledger s, (s, t) :: e.locks,
                    e.threads.set t (.bCheck s a)⟩ := by
                simp [step, hg', hfree]
              rw [hstep]
              intro s''
              have hbuy := sumMap_set e.threads t _ (TPC.bCheck s a)
                (buyAmt s'') hg
              have hsell := sumMap_set e.threads t _ (TPC.bCheck s a)
                (sellAmt s'') hg
              have hA' := hA s''
              have e1 : buyAmt s'' (TPC.bWait s a) = 0 := rfl
              have e2 : buyAmt s'' (TPC.bCheck s a) = 0 := rfl
              have e3 : sellAmt s'' (TPC.bWait s a) = 0 := rfl
              have e4 : sellAmt s'' (TPC.bCheck s a) = 0 := rfl
              have e5 := getD_insertD e.ledger s s''
              simp only [boughtSum, soldSum] at hbuy hsell hA' ⊢
              omega
      | bCheck s a =>
          obtain ⟨hpres, hownt⟩ := hpc0
          cases hll : lookupL e.ledger s with
          | none =>
              rw [hll] at hpres
              cases hpres
          | some bal =>
              by_cases hab : a ≤ bal
              · have hstep : (step e t).getD e =
                    { e with threads := e.threads.set t (.bDec s a) } := by
                  simp [step, hg', hll, hab]
                rw [hstep]
                intro s''
                have hbuy := sumMap_set e.threads t _ (TPC.bDec s a)
                  (buyAmt s'') hg
                have hsell := sumMap_set e.threads t _ (TPC.bDec s a)
                  (sellAmt s'') hg
                have hA' := hA s''
                have e1 : buyAmt s'' (TPC.bCheck s a) = 0 := rfl
                have e2 : buyAmt s'' (TPC.bDec s a) = 0 := rfl
                have e3 : sellAmt s'' (TPC.bCheck s a) = 0 := rfl
                have e4 : sellAmt s'' (TPC.bDec s a) = 0 := rfl
                simp only [boughtSum, soldSum] at hbuy hsell hA' ⊢
                omega
              · have hstep : (step e t).getD e =
                    ⟨e.ledger, relAll e.locks s,
                      e.threads.set t (.bWait s a)⟩ := by
                  simp [step, hg', hll, hab]
                rw [hstep]
                intro s''
                have hbuy := sumMap_set e.threads t _ (TPC.bWait s a)
                  (buyAmt s'') hg
                have hsell := sumMap_set e.threads t _ (TPC.bWait s a)
                  (sellAmt s'') hg
                have hA' := hA s''
                have e1 : buyAmt s'' (TPC.bCheck s a) = 0 := rfl
                have e2 : buyAmt s'' (TPC.bWait s a) = 0 := rfl
                have e3 : sellAmt s'' (TPC.bCheck s a) = 0 := rfl
                have e4 : sellAmt s'' (TPC.bWait s a) = 0 := rfl
                simp only [boughtSum, soldSum] at hbuy hsell hA' ⊢
                omega
      | bDec s a =>
          obtain ⟨⟨bal, hll, hab⟩, hownt⟩ := hpc0
          have hbal32 := hI.2.2 s bal hll
          have hid : insertD e.ledger s = e.ledger := by
            unfold insertD
            rw [hll]
          have hw : wsub ((lookupL e.ledger s).getD 0) a = bal - a := by
            rw [hll]
            exact wsub_eq_sub bal a hbal32 hab
          have hstep : (step e t).getD e =
              ⟨setL e.ledger s (bal - a), relAll e.locks s,
                e.threads.set t (.bDone s a)⟩ := by
            simp [step, hg', hid, hw]
          rw [hstep]
          intro s''
          have hbuy := sumMap_set e.threads t _ (TPC.bDone s a)
            (buyAmt s'') hg
          have hsell := sumMap_set e.threads t _ (TPC.bDone s a)
            (sellAmt s'') hg
          have hA' := hA s''
          have e1 : buyAmt s'' (TPC.bDec s a) = 0 := rfl
          have e3 : sellAmt s'' (TPC.bDec s a) = 0 := rfl
          have e4 : sellAmt s'' (TPC.bDone s a) = 0 := rfl
          by_cases hs : s'' = s
          · subst hs
            have e2 : buyAmt s'' (TPC.bDone s'' a) = a := by
              show (if s'' = s'' then a else 0) = a
              rw [if_pos rfl]
            have e5 : lookupL (setL e.ledger s'' (bal - a)) s'' =
                some (bal - a) := lookupL_setL_self _ _ _
            have e6 : (lookupL e.ledger s'').getD 0 = bal := by
              rw [hll]
              rfl
            simp only [boughtSum, soldSum] at hbuy hsell hA' ⊢
            rw [e5]
            simp only [Option.getD_some]
            omega
          · have e2 : buyAmt s'' (TPC.bDone s a) = 0 := by
              show (if s = s'' then a else 0) = 0
              rw [if_neg (Ne.symm hs)]
            have e5 := lookupL_setL_ne e.ledger s s'' (bal - a) hs
            simp only [boughtSum, soldSum] at hbuy hsell hA' ⊢
            rw [e5]
            omega
      | bDone s a => simpa [step, hg'] using hA
      | bNotFound => simpa [step, hg'] using hA
      | bCrashed => exact hpc0.elim
      | sStart s a =>
          by_cases hp : (lookupL e.ledger s).isSome = true
          · have hstep : (step e t).getD e =
                { e with threads := e.threads.set t (.sWait s a) } := by
              simp [step, hg', hp]
            rw [hstep]
            intro s''
            have hbuy := sumMap_set e.threads t _ (TPC.sWait s a)
              (buyAmt s'') hg
            have hsell := sumMap_set e.threads t _ (TPC.sWait s a)
              (sellAmt s'') hg
            have hA' := hA s''
            have e1 : buyAmt s'' (TPC.sStart s a) = 0 := rfl
            have e2 : buyAmt s'' (TPC.sWait s a) = 0 := rfl
            have e3 : sellAmt s'' (TPC.sStart s a) = 0 := rfl
            have e4 : sellAmt s'' (TPC.sWait s a) = 0 := rfl
            simp only [boughtSum, soldSum] at hbuy hsell hA' ⊢
            omega
          · have hstep : (step e t).getD e =
                { e with threads := e.threads.set t .sNotFound } := by
              simp [step, hg', hp]
            rw [hstep]
            intro s''
            have hbuy := sumMap_set e.threads t _ TPC.sNotFound
              (buyAmt s'') hg
            have hsell := sumMap_set e.threads t _ TPC.sNotFound
              (sellAmt s'') hg
            have hA' := hA s''
            have e1 : buyAmt s'' (TPC.sStart s a) = 0 := rfl
            have e2 : buyAmt s'' TPC.sNotFound = 0 := rfl
            have e3 : sellAmt s'' (TPC.sStart s a) = 0 := rfl
            have e4 : sellAmt s'' TPC.sNotFound = 0 := rfl
            simp only [boughtSum, soldSum] at hbuy hsell hA' ⊢
            omega
      | sWait s a =>
          cases hfree : lookupL e.locks s with
          | some t' => simpa [step, hg', hfree] using hA
          | none =>
              have hstep : (step e t).getD e =
                  ⟨insertD e.ledger s, (s, t) :: e.locks,
                    e.threads.set t (.sApply s a)⟩ := by
                simp [step, hg', hfree]
              rw [hstep]
              intro s''
              have hbuy := sumMap_set e.threads t _ (TPC.sApply s a)
                (buyAmt s'') hg
              have hsell := sumMap_set e.threads t _ (TPC.sApply s a)
                (sellAmt s'') hg
              have hA' := hA s''
              have e1 : buyAmt s'' (TPC.sWait s a) = 0 := rfl
              have e2 : buyAmt s'' (TPC.sApply s a) = 0 := rfl
              have e3 : sellAmt s'' (TPC.sWait s a) = 0 := rfl
              have e4 : sellAmt s'' (TPC.sApply s a) = 0 := rfl
              have e5 := getD_insertD e.ledger s s''
              simp only [boughtSum, soldSum] at hbuy hsell hA' ⊢
              omega
      | sApply s a =>
          obtain ⟨hpres, hownt⟩ := hpc0
          cases hll : lookupL e.ledger s with
          | none =>
              rw [hll] at hpres
              cases hpres
          | some bal =>
              have hid : insertD e.ledger s = e.ledger := by
                unfold insertD
                rw [hll]
              have hstep : (step e t).getD e =
                  ⟨setL e.ledger s (wadd bal a), relAll e.locks s,
                    e.threads.set t (.sDone s a)⟩ := by
                simp [step, hg', hid, hll]
              rw [hstep]
              intro s''
              have hbuy := sumMap_set e.threads t _ (TPC.sDone s a)
                (buyAmt s'') hg
              have hsell := sumMap_set e.threads t _ (TPC.sDone s a)
                (sellAmt s'') hg
              have hA' := hA s''
              have e1 : buyAmt s'' (TPC.sApply s a) = 0 := rfl
              have e2 : buyAmt s'' (TPC.sDone s a) = 0 := rfl
              have e3 : sellAmt s'' (TPC.sApply s a) = 0 := rfl
              have hwle : wadd bal a ≤ bal + a := Nat.mod_le _ _
              by_cases hs : s'' = s
              · subst hs
                have e4 : sellAmt s'' (TPC.sDone s'' a) = a := by
                  show (if s'' = s'' then a else 0) = a
                  rw [if_pos rfl]
                have e5 : lookupL (setL e.ledger s'' (wadd bal a)) s'' =
                    some (wadd bal a) := lookupL_setL_self _ _ _
                have e6 : (lookupL e.ledger s'').getD 0 = bal := by
                  rw [hll]
                  rfl
                simp only [boughtSum, soldSum] at hbuy hsell hA' ⊢
                rw [e5]
                simp only [Option.getD_some]
                omega
              · have e4 : sellAmt s'' (TPC.sDone s a) = 0 := by
                  show (if s = s'' then a else 0) = 0
                  rw [if_neg (Ne.symm hs)]
                have e5 := lookupL_setL_ne e.ledger s s'' (wadd bal a) hs
                simp only [boughtSum, soldSum] at hbuy hsell hA' ⊢
                rw [e5]
                omega
      | sDone s a => simpa [step, hg'] using hA
      | sNotFound => simpa [step, hg'] using hA
      | cStart s a => exact hpc0.elim
      | cIns s a => exact hpc0.elim
      | cSetBal s a => exact hpc0.elim
      | cDone s a => exact hpc0.elim
      | cExists s => exact hpc0.elim
      | rStart => exact hpc0.elim
      | rDone => simpa [step, hg'] using hA

/-- The accounting bound holds along every schedule. -/
theorem Acct_run_aux (init e : Exch) (hI : Inv e) (hA : Acct init e)
    (sched : List Nat) : Acct init (runSched e sched) := by
  induction sched generalizing e with
  | nil => exact hA
  | cons t rest ih =>
      have h1 : runSched e (t :: rest) = runSched ((step e t).getD e) rest :=
        rfl
      rw [h1]
      exact ih _ (step_Inv e t hI) (step_Acct init e t hI hA)

/-- In a well-formed initial state all completed-transaction sums are
zero. -/
theorem sums_init (e : Exch) (h : InitOK e) (s : String) :
    boughtSum e s = 0 ∧ soldSum e s = 0 := by
  obtain ⟨-, hth, -⟩ := h
  constructor
  · refine sum_map_zero _ _ ?_
    intro pc hmem
    have := List.all_eq_true.mp hth pc hmem
    cases pc with
    | bStart s' a => rfl
    | sStart s' a => rfl
    | bWait s' a => simp [entryBS] at this
    | bCheck s' a => simp [entryBS] at this
    | bDec s' a => simp [entryBS] at this
    | bDone s' a => simp [entryBS] at this
    | bNotFound => simp [entryBS] at this
    | bCrashed => simp [entryBS] at this
    | sWait s' a => simp [entryBS] at this
    | sApply s' a => simp [entryBS] at this
    | sDone s' a => simp [entryBS] at this
    | sNotFound => simp [entryBS] at this
    | cStart s' a => simp [entryBS] at this
    | cIns s' a => simp [entryBS] at this
    | cSetBal s' a => simp [entryBS] at this
    | cDone s' a => simp [entryBS] at this
    | cExists s' => simp [entryBS] at this
    | rStart => simp [entryBS] at this
    | rDone => simp [entryBS] at this
  · refine sum_map_zero _ _ ?_
    intro pc hmem
    have := List.all_eq_true.mp hth pc hmem
    cases pc with
    | bStart s' a => rfl
    | sStart s' a => rfl
    | bWait s' a => simp [entryBS] at this
    | bCheck s' a => simp [entryBS] at this
    | bDec s' a => simp [entryBS] at this
    | bDone s' a => simp [entryBS] at this
    | bNotFound => simp [entryBS] at this
    | bCrashed => simp [entryBS] at this
    | sWait s' a => simp [entryBS] at this
    | sApply s' a => simp [entryBS] at this
    | sDone s' a => simp [entryBS] at this
    | sNotFound => simp [entryBS] at this
    | cStart s' a => simp [entryBS] at this
    | cIns s' a => simp [entryBS] at this
    | cSetBal s' a => simp [entryBS] at this
    | cDone s' a => simp [entryBS] at this
    | cExists s' => simp [entryBS] at this
    | rStart => simp [entryBS] at this
    | rDone => simp [entryBS] at this

/-! ## C3: create inserts when absent, refuses when present -/

/-- C3: `create(name, amount)` inserts `balance = amount` and reports
"created" when `name` is absent; when present it mutates nothing and
reports "already exists"; hence any repetition of a create after a first
create reports "already exists" and leaves the ledger unchanged. -/
theorem create_once_then_exists (l : Ledger) (s : String) (a b a2 : Nat) :
    (lookupL l s = none →
      create l s a =
        ("Stock " ++ s ++ " created with balance = " ++ toString a,
          setL l s a)) ∧
    (lookupL l s = some b →
      create l s a = ("Stock " ++ s ++ " already exists", l)) ∧
    (create ((create l s a).2) s a2 =
      ("Stock " ++ s ++ " already exists", (create l s a).2)) := by
  refine ⟨?_, ?_, ?_⟩
  · intro h
    unfold create insertD
    rw [h]
    rw [setL_append_absent l s a h]
  · intro h
    unfold create
    rw [h]
  · cases h : lookupL l s with
    | none =>
        unfold create
        rw [h]
        simp only
        rw [lookupL_setL_self]
    | some v =>
        unfold create
        rw [h]
        simp only
        rw [h]

/-- Witness for C3 at a concrete input. -/
theorem create_once_then_exists_witness :
    create ((create ([] : Ledger) "ACME" 10).2) "ACME" 10 =
      ("Stock ACME already exists", [("ACME", 10)]) := by
  have h := (create_once_then_exists ([] : Ledger) "ACME" 10 0 10).2.2
  refine h.trans ?_
  decide

/-! ## C4: invalid requests

The claim that a malformed `amount` yields "Invalid request" fails on the
code: a failed `istringstream` extraction stores `0` into `amount`
(C++11) and a recognised operation still runs.  Only an unrecognised
operation name produces "Invalid request". -/

/-- C4 counterexample: `?trans=create&stock=X&amount=abc` has a
non-numeric amount, yet the session does not answer "Invalid request" —
it runs `create` with amount `0` and mutates the ledger. -/
theorem malformed_amount_not_rejected :
    clientThread ([] : Ledger) "?trans=create&stock=X&amount=abc" =
        some ("Stock X created with balance = 0", [("X", 0)]) ∧
      ("Stock X created with balance = 0" : String) ≠ "Invalid request" ∧
      ([("X", 0)] : Ledger) ≠ ([] : Ledger) := by
  refine ⟨?_, by decide, by decide⟩
  decide

/-- C4 amended: a request whose operation name is none of the five
recognised ones yields "Invalid request" and leaves the ledger untouched;
a malformed amount alone does not invalidate a request (extraction yields
`0` and the recognised operation proceeds, as the counterexample shows). -/
theorem unknown_operation_invalid_request (l : Ledger) (url : String)
    (h : (parseRequest url).1 ∉
      (["reset", "create", "buy", "sell", "status"] : List String)) :
    clientThread l url = some ("Invalid request", l) := by
  simp only [List.mem_cons, List.mem_singleton, not_or] at h
  obtain ⟨h1, h2, h3, h4, h5, -⟩ := h
  show dispatch l (parseRequest url).1 (parseRequest url).2.1
      (parseRequest url).2.2 = some ("Invalid request", l)
  unfold dispatch
  rw [if_neg h1, if_neg h2, if_neg h3, if_neg h4, if_neg h5]

/-- Witness for the amended C4. -/
theorem unknown_operation_invalid_request_witness :
    clientThread [("ACME", 10)] "?trans=destroy&stock=ACME&amount=5" =
      some ("Invalid request", [("ACME", 10)]) :=
  unknown_operation_invalid_request [("ACME", 10)]
    "?trans=destroy&stock=ACME&amount=5" (by decide)

/-! ## C8: buy on an absent stock returns immediately -/

/-- C8: when `stock` is absent from the ledger, `buy` answers
"Stock not found" at once (the result is `some`, i.e. the session never
reaches the condition-variable wait) and the ledger is untouched. -/
theorem buy_absent_not_found (l : Ledger) (s : String) (a : Nat)
    (h : lookupL l s = none) :
    buy l s a = some ("Stock not found", l) := by
  unfold buy
  rw [h]

/-- Witness for C8. -/
theorem buy_absent_not_found_witness :
    buy [("ACME", 10)] "GHOST" 1 = some ("Stock not found", [("ACME", 10)]) :=
  buy_absent_not_found [("ACME", 10)] "GHOST" 1 (by decide)

/-! ## C9: status after reset -/

/-- C9: `reset` clears every entry, so a subsequent `status` on any name
(previously created or not) answers "Stock not found". -/
theorem status_after_reset (l : Ledger) (s : String) :
    status (reset l).2 s = "Stock not found" := rfl

/-! ## C10: buy of amount 0 is an identity -/

/-- C10: when `stock` exists, `buy stock 0` never waits (`0 ≤ balance`
holds at the first predicate evaluation), reports success and returns the
ledger unchanged (the decrement writes back the unchanged balance). -/
theorem buy_zero_identity (l : Ledger) (s : String) (b : Nat)
    (h : lookupL l s = some b) :
    buy l s 0 = some ("Stock " ++ s ++ "\x27s balance updated", l) := by
  unfold buy
  rw [h]
  simp only [Nat.zero_le, if_true, Nat.sub_zero]
  rw [setL_lookup_self l s b h]

/-- Witness for C10. -/
theorem buy_zero_identity_witness :
    buy [("ACME", 7)] "ACME" 0 =
      some ("Stock ACME\x27s balance updated", [("ACME", 7)]) :=
  buy_zero_identity [("ACME", 7)] "ACME" 7 (by decide)

/-! ## C1: a fulfilled buy decrements atomically with its check

Quantified over every reachable state of pools of buy and sell sessions
(already-completed `create`s are the initial ledger; the unlocked writes
of a mid-flight `create` or `reset` bypass the per-stock mutex and are
treated under C2 and C6). -/

/-- C1: whenever a buy session is about to perform its decrement
(`balance -= amount`, src line 119), it still holds the instrument's
lock — held continuously since `buyCond.wait` evaluated the predicate
true — the predicate `a ≤ balance` still holds at that instant, and its
step replaces the balance by exactly `bal - a`, which is a `Nat` (never
below zero) and at most the old balance. -/
theorem buy_fulfilled_decrements_atomically (init : Exch)
    (hinit : InitOK init) (sched : List Nat) (t : Nat) (s : String)
    (a : Nat)
    (hpc : (runSched init sched).threads.get? t = some (.bDec s a)) :
    ∃ bal, lookupL (runSched init sched).ledger s = some bal ∧ a ≤ bal ∧
      lookupL (runSched init sched).locks s = some t ∧
      ∃ e', step (runSched init sched) t = some e' ∧
        e'.threads.get? t = some (.bDone s a) ∧
        lookupL e'.ledger s = some (bal - a) ∧ bal - a ≤ bal := by
  have hI := Inv_runSched init hinit sched
  obtain ⟨⟨bal, hll, hab⟩, hownt⟩ := hI.1 t _ hpc
  have hbal32 := hI.2.2 s bal hll
  refine ⟨bal, hll, hab, hownt, ?_⟩
  have hg' : (runSched init sched).threads[t]? = some (TPC.bDec s a) := by
    rw [← List.get?_eq_getElem?]
    exact hpc
  have hid : insertD (runSched init sched).ledger s =
      (runSched init sched).ledger := by
    unfold insertD
    rw [hll]
  have hw : wsub ((lookupL (runSched init sched).ledger s).getD 0) a =
      bal - a := by
    rw [hll]
    exact wsub_eq_sub _ _ hbal32 hab
  have hstep : step (runSched init sched) t =
      some ⟨setL (runSched init sched).ledger s (bal - a),
        relAll (runSched init sched).locks s,
        (runSched init sched).threads.set t (.bDone s a)⟩ := by
    simp [step, hg', hid, hw]
  refine ⟨_, hstep, ?_, lookupL_setL_self _ _ _, Nat.sub_le _ _⟩
  exact get?_set_self _ _ _ (get?_lt_length _ _ _ hpc)

/-- Witness for C1: a buyer of 2 on a stock with balance 5 reaches its
decrement point after three steps. -/
theorem buy_fulfilled_decrements_atomically_witness :
    ∃ bal,
      lookupL (runSched ⟨[("A", 5)], [], [TPC.bStart "A" 2]⟩
        [0, 0, 0]).ledger "A" = some bal ∧ 2 ≤ bal ∧
      lookupL (runSched ⟨[("A", 5)], [], [TPC.bStart "A" 2]⟩
        [0, 0, 0]).locks "A" = some 0 ∧
      ∃ e', step (runSched ⟨[("A", 5)], [], [TPC.bStart "A" 2]⟩ [0, 0, 0])
          0 = some e' ∧
        e'.threads.get? 0 = some (.bDone "A" 2) ∧
        lookupL e'.ledger "A" = some (bal - 2) ∧ bal - 2 ≤ bal :=
  buy_fulfilled_decrements_atomically ⟨[("A", 5)], [], [TPC.bStart "A" 2]⟩
    (by decide) [0, 0, 0] 0 "A" 2 (by decide)

/-! ## C2: no double-spend

The claim fails as stated: `create` writes the map in two statements with
no lock whatsoever (src lines 83-84), so a `create` still in flight while
trading is under way can clobber a balance in the middle of a fulfilled
buy and wrap the unsigned decrement around, after which buyers can
consume about `2 ^ 32` units that were never supplied.  Without a
concurrently running create (its amount contributing as the initial
balance instead), the bound holds. -/

/-- C2 counterexample: `create("A", 5)` is paused between its existence
check and its balance write; `sell("A", 10)` and a fulfilled
`buy("A", 7)` run; the create's unlocked `balance = 5` then lands inside
the buy's critical section, `balance -= 7` wraps to `2 ^ 32 - 2`, and a
second buy of 4000000000 succeeds: 4000000007 bought out of only
5 + 10 = 15 supplied by create + sell. -/
theorem buy_double_spend_via_unlocked_create :
    boughtSum (runSched
        ⟨[], [], [TPC.cStart "A" 5, TPC.sStart "A" 10, TPC.bStart "A" 7,
          TPC.bStart "A" 4000000000]⟩
        [0, 0, 1, 1, 1, 2, 2, 2, 0, 2, 3, 3, 3, 3]) "A" = 4000000007 ∧
      createdSum (runSched
        ⟨[], [], [TPC.cStart "A" 5, TPC.sStart "A" 10, TPC.bStart "A" 7,
          TPC.bStart "A" 4000000000]⟩
        [0, 0, 1, 1, 1, 2, 2, 2, 0, 2, 3, 3, 3, 3]) "A" = 5 ∧
      soldSum (runSched
        ⟨[], [], [TPC.cStart "A" 5, TPC.sStart "A" 10, TPC.bStart "A" 7,
          TPC.bStart "A" 4000000000]⟩
        [0, 0, 1, 1, 1, 2, 2, 2, 0, 2, 3, 3, 3, 3]) "A" = 10 ∧
      ¬(4000000007 ≤ 5 + 10) := by
  refine ⟨by decide, by decide, by decide, by decide⟩

/-- C2 amended: in pools of buy and sell sessions (every create completed
before trading, its amount appearing as the initial balance; no create
concurrently in flight), a buy whose predicate is false goes back to
waiting instead of completing, and the sum of all successful buy amounts
on an instrument never exceeds its initial (created) balance plus the sum
of all completed sell amounts. -/
theorem no_double_spend_without_concurrent_create (init : Exch)
    (hinit : InitOK init) (sched : List Nat) :
    (∀ s, boughtSum (runSched init sched) s ≤
      (lookupL init.ledger s).getD 0 + soldSum (runSched init sched) s) ∧
    (∀ t s a bal e',
      (runSched init sched).threads.get? t = some (.bCheck s a) →
      lookupL (runSched init sched).ledger s = some bal → bal < a →
      step (runSched init sched) t = some e' →
      e'.threads.get? t = some (.bWait s a)) := by
  constructor
  · have hA0 : Acct init init := by
      intro s
      have hz := sums_init init hinit s
      omega
    have hA := Acct_run_aux init init (Inv_init init hinit) hA0 sched
    intro s
    have h := hA s
    omega
  · intro t s a bal e' hpc hll hlt hstep
    have hg' : (runSched init sched).threads[t]? = some (TPC.bCheck s a) := by
      rw [← List.get?_eq_getElem?]
      exact hpc
    have hab : ¬ a ≤ bal := by omega
    have heq : some (⟨(runSched init sched).ledger,
        relAll (runSched init sched).locks s,
        (runSched init sched).threads.set t (.bWait s a)⟩ : Exch) =
        some e' := by
      rw [← hstep]
      simp [step, hg', hll, hab]
    cases heq
    exact get?_set_self _ _ _ (get?_lt_length _ _ _ hpc)

/-- Witness for the amended C2: a buyer of 2 and a seller of 3 on a stock
created with 5 run to completion; 2 bought never exceeds 5 + 3. -/
theorem no_double_spend_without_concurrent_create_witness :
    boughtSum (runSched ⟨[("A", 5)], [],
        [TPC.bStart "A" 2, TPC.sStart "A" 3]⟩
      [0, 0, 0, 0, 1, 1, 1]) "A" ≤
      (lookupL [("A", 5)] "A").getD 0 +
        soldSum (runSched ⟨[("A", 5)], [],
            [TPC.bStart "A" 2, TPC.sStart "A" 3]⟩
          [0, 0, 0, 0, 1, 1, 1]) "A" :=
  (no_double_spend_without_concurrent_create
    ⟨[("A", 5)], [], [TPC.bStart "A" 2, TPC.sStart "A" 3]⟩
    (by decide) [0, 0, 0, 0, 1, 1, 1]).1 "A"

/-! ## C5: the admission bound is violated (code bug)

`clientThread` increments `sm::threadCount` itself (src line 247);
`runServer` re-checks `threadCount < maxThreads` before the previously
spawned child has run, so the gate passes arbitrarily often.  The code's
own comments (src lines 48, 308-309) state the bound was intended. -/

/-- C5: with `maxThreads = 1`, accepting two connections before either
child reaches its increment puts two sessions concurrently inside the
transaction processor. -/
theorem admission_bound_violated_run :
    numActive (runSrv ⟨1, 0, []⟩ [none, none, some 0, some 1]) = 2 ∧
      (runSrv ⟨1, 0, []⟩ [none, none, some 0, some 1]).maxThreads = 1 ∧
      ¬(numActive (runSrv ⟨1, 0, []⟩ [none, none, some 0, some 1]) ≤ 1) := by
  refine ⟨by decide, by decide, by decide⟩

/-! ## C6: reset versus in-flight buy

The claim fails: `reset` clears the map with no lock, and a buy that has
already passed its existence check never takes the "Stock not found"
branch again — its next access `sm::stockMap[stock]` (src line 114)
default-inserts the instrument back with balance `0` (corrupting the
cleared state and blocking forever), or `stockMap.at(stock)` inside the
wait predicate (src line 117) throws, killing the process. -/

/-- C6 counterexample: buyer of 1 on "A" (balance 5) passes its existence
check; `reset` clears the map; the buyer's lock acquisition re-inserts
`("A", 0)` — after a completed reset the ledger is non-empty again — and
the buyer is parked at its wait, not at "Stock not found". -/
theorem reset_race_reinserts_stock :
    runSched ⟨[("A", 5)], [], [TPC.bStart "A" 1, TPC.rStart]⟩ [0, 1, 0, 0] =
        ⟨[("A", 0)], [], [TPC.bWait "A" 1, TPC.rDone]⟩ ∧
      msgOf (TPC.bWait "A" 1) ≠ some "Stock not found" ∧
      lookupL [("A", 0)] "A" = some 0 := by
  refine ⟨by decide, by decide, by decide⟩

/-- C6 amended: `reset` clears every entry in one step; but a buy session
past its existence check can never answer "Stock not found" — every step
available to it leads to re-acquiring/re-checking, the decrement, success,
or the out-of-range crash, never to the not-found branch. -/
theorem reset_clears_and_inflight_buy_never_not_found (e : Exch) (t : Nat)
    (e' : Exch) :
    (e.threads.get? t = some .rStart → step e t = some e' →
      e'.ledger = [] ∧ e'.threads.get? t = some .rDone) ∧
    (∀ s a,
      (e.threads.get? t = some (.bWait s a) ∨
        e.threads.get? t = some (.bCheck s a) ∨
        e.threads.get? t = some (.bDec s a)) →
      step e t = some e' → e'.threads.get? t ≠ some .bNotFound) := by
  constructor
  · intro hg hstep
    have hg' : e.threads[t]? = some TPC.rStart := by
      rw [← List.get?_eq_getElem?]
      exact hg
    have heq : some (⟨[], e.locks, e.threads.set t .rDone⟩ : Exch) =
        some e' := by
      rw [← hstep]
      simp [step, hg']
    cases heq
    exact ⟨rfl, get?_set_self _ _ _ (get?_lt_length _ _ _ hg)⟩
  · intro s a hd hstep
    rcases hd with hg | hg | hg
    · have hg' : e.threads[t]? = some (TPC.bWait s a) := by
        rw [← List.get?_eq_getElem?]
        exact hg
      cases hfree : lookupL e.locks s with
      | some t' =>
          rw [show step e t = none by simp [step, hg', hfree]] at hstep
          cases hstep
      | none =>
          have heq : some (⟨insertD e.ledger s, (s, t) :: e.locks,
              e.threads.set t (.bCheck s a)⟩ : Exch) = some e' := by
            rw [← hstep]
            simp [step, hg', hfree]
          cases heq
          rw [get?_set_self _ _ _ (get?_lt_length _ _ _ hg)]
          exact fun hc => TPC.noConfusion (Option.some.inj hc)
    · have hg' : e.threads[t]? = some (TPC.bCheck s a) := by
        rw [← List.get?_eq_getElem?]
        exact hg
      cases hll : lookupL e.ledger s with
      | none =>
          have heq : some (⟨e.ledger, relAll e.locks s,
              e.threads.set t .bCrashed⟩ : Exch) = some e' := by
            rw [← hstep]
            simp [step, hg', hll]
          cases heq
          rw [get?_set_self _ _ _ (get?_lt_length _ _ _ hg)]
          exact fun hc => TPC.noConfusion (Option.some.inj hc)
      | some bal =>
          by_cases hab : a ≤ bal
          · have heq : some ({ e with
                threads := e.threads.set t (.bDec s a) } : Exch) =
                some e' := by
              rw [← hstep]
              simp [step, hg', hll, hab]
            cases heq
            rw [get?_set_self _ _ _ (get?_lt_length _ _ _ hg)]
            exact fun hc => TPC.noConfusion (Option.some.inj hc)
          · have heq : some (⟨e.ledger, relAll e.locks s,
                e.threads.set t (.bWait s a)⟩ : Exch) = some e' := by
              rw [← hstep]
              simp [step, hg', hll, hab]
            cases heq
            rw [get?_set_self _ _ _ (get?_lt_length _ _ _ hg)]
            exact fun hc => TPC.noConfusion (Option.some.inj hc)
    · have hg' : e.threads[t]? = some (TPC.bDec s a) := by
        rw [← List.get?_eq_getElem?]
        exact hg
      have heq : some (⟨setL (insertD e.ledger s) s
          (wsub ((lookupL e.ledger s).getD 0) a), relAll e.locks s,
          e.threads.set t (.bDone s a)⟩ : Exch) = some e' := by
        rw [← hstep]
        simp [step, hg']
      cases heq
      rw [get?_set_self _ _ _ (get?_lt_length _ _ _ hg)]
      exact fun hc => TPC.noConfusion (Option.some.inj hc)

/-- Witness for the amended C6. -/
theorem reset_clears_and_inflight_buy_never_not_found_witness :
    (⟨[("A", 0)], [], [TPC.bWait "A" 1]⟩ : Exch).threads.get? 0 ≠
      some TPC.bNotFound :=
  (reset_clears_and_inflight_buy_never_not_found
      ⟨[("A", 0)], [("A", 0)], [TPC.bCheck "A" 1]⟩ 0
      ⟨[("A", 0)], [], [TPC.bWait "A" 1]⟩).2 "A" 1
    (Or.inr (Or.inl (by decide))) (by decide)

/-! ## C7: sell increments modulo `2 ^ 32`

The increase is exactly `a` only when `balance + a` does not overflow the
`unsigned int`; `sell` then releases the stock's lock after its
increment + `notify_all`, making every parked buy-waiter eligible to
re-acquire and re-check. -/

/-- C7 counterexample: selling 4294967295 on balance 1 wraps to 0 — the
reported balance did not increase by exactly the sold amount. -/
theorem sell_overflow_wraps :
    sell [("A", 1)] "A" 4294967295 =
        ("Stock A\x27s balance updated", [("A", 0)]) ∧
      status [("A", 0)] "A" = "Balance for stock A = 0" ∧
      (0 : Nat) ≠ 1 + 4294967295 := by
  refine ⟨by decide, by decide, by decide⟩

/-- C7 amended: when the stock exists, `sell` stores
`(balance + a) % 2 ^ 32` — equal to `balance + a`, an increase of exactly
`a`, whenever there is no overflow; when absent it answers
"Stock not found" and mutates nothing; and in the concurrent model the
increment step (which performs `notify_all`) leaves the stock's lock
free, so all parked buy-waiters may re-check their predicate. -/
theorem sell_increments_mod32_and_unlocks (l : Ledger) (s : String)
    (a b : Nat) (e : Exch) (t : Nat) (e' : Exch) :
    (lookupL l s = some b →
      sell l s a = ("Stock " ++ s ++ "\x27s balance updated",
        setL l s ((b + a) % M32)) ∧
      (b + a < M32 → (b + a) % M32 = b + a)) ∧
    (lookupL l s = none → sell l s a = ("Stock not found", l)) ∧
    (e.threads.get? t = some (.sApply s a) → step e t = some e' →
      lookupL e'.locks s = none ∧
        e'.threads.get? t = some (.sDone s a)) := by
  refine ⟨?_, ?_, ?_⟩
  · intro h
    constructor
    · simp only [sell, h, wadd]
    · intro hlt
      exact Nat.mod_eq_of_lt hlt
  · intro h
    simp only [sell, h]
  · intro hg hstep
    have hg' : e.threads[t]? = some (TPC.sApply s a) := by
      rw [← List.get?_eq_getElem?]
      exact hg
    have heq : some (⟨setL (insertD e.ledger s) s
        (wadd ((lookupL e.ledger s).getD 0) a), relAll e.locks s,
        e.threads.set t (.sDone s a)⟩ : Exch) = some e' := by
      rw [← hstep]
      simp [step, hg']
    cases heq
    exact ⟨lookupL_relAll_self _ _,
      get?_set_self _ _ _ (get?_lt_length _ _ _ hg)⟩

/-- Witness for the amended C7. -/
theorem sell_increments_mod32_and_unlocks_witness :
    sell [("A", 1)] "A" 2 =
      ("Stock A\x27s balance updated", [("A", 3)]) := by
  have h := (sell_increments_mod32_and_unlocks [("A", 1)] "A" 2 1
    ⟨[], [], []⟩ 0 ⟨[], [], []⟩).1 (by decide)
  exact h.1.trans (by decide)

end StockExchange
